import Mathlib

/-!
# Verification of the bulk CSV ingestion pipeline

Shallow embedding of the bulk ingestion pipeline of the production-dashboard
repository: encoding fallback and header normalization
(`src/lib/csv-header-replacer.ts`), CSV row to production-record conversion
(`englishCSVRowToProduction` and its `safeParse*` helpers), the 8000-row
chunker and the sequential per-chunk orchestration loop of the chunked upload
route, the staged-artifact lifecycle (`supabase.storage upload` / the edge
function's `remove`), the chunk file naming scheme, and the reconciling
upsert against the `productions` store.

Strings are Lean `String`s; the JavaScript host primitives used by the source
(`String.prototype.trim`, `Number` to decimal-string conversion) are modelled
by executable Lean functions on the character data.  Machine integers are
modelled as `Nat`/`Int` (no arithmetic in the source overflows).
-/

/-- Model of JavaScript `String.prototype.trim`: drop leading and trailing
whitespace characters.  (JS trims the Unicode whitespace class; the inputs
relevant here only carry ASCII whitespace, which `Char.isWhitespace` covers.) -/
def jsTrim (s : String) : String :=
  ⟨((s.data.dropWhile Char.isWhitespace).reverse.dropWhile Char.isWhitespace).reverse⟩

/-- Model of JavaScript `str.substring(0, n)`: the first `n` characters. -/
def jsTake (s : String) (n : Nat) : String :=
  ⟨s.data.take n⟩

/-- The canonical English header list of `src/lib/csv-header-replacer.ts`
(`ENGLISH_HEADERS`), in source order. -/
def ENGLISH_HEADERS : List String :=
  ["arrangement_method", "inspection_type", "customer_name", "part_number",
   "production_order_number", "line_code", "work_area", "operator_main",
   "operator_plating", "plating_type", "plating_jig", "issue_date",
   "plating_payout_date", "due_date", "order_quantity", "oohito_shipment_date",
   "plating_process", "tamagawa_receipt_date", "operator_5x", "shelf_number",
   "plating_capacity", "bending_count", "brazing_count", "machine_number",
   "brazing_jig", "subcontractor"]

/-- `ENGLISH_HEADERS.join(',')`, the replacement first line. -/
def englishHeaderLine : String :=
  String.intercalate "," ENGLISH_HEADERS

/-- `replaceCSVHeaders` from `src/lib/csv-header-replacer.ts`: split on
newline, overwrite the first line with the canonical header line, re-join.
(The `lines.length === 0` guard of the source is unreachable because
`split` never returns an empty array; it is kept for fidelity.) -/
def replaceCSVHeaders (csvContent : String) : String :=
  let lines := csvContent.splitOn "\n"
  if lines.isEmpty then csvContent
  else String.intercalate "\n" (lines.set 0 englishHeaderLine)

/-- The chunked upload route's line parsing
(`modifiedContent.split('\n').filter(line => line.trim())`): keep the lines
that are nonempty after trimming. -/
def parseLines (content : String) : List String :=
  (content.splitOn "\n").filter (fun line => jsTrim line ≠ "")

/-- `CHUNK_SIZE` of the chunked upload route. -/
def CHUNK_SIZE : Nat := 8000

/-- The slicing loop of the chunked upload route
(`for (let i = 0; i < dataRows.length; i += CHUNK_SIZE)
   chunks.push(dataRows.slice(i, i + CHUNK_SIZE))`, before the header is
prepended): take `C` rows at a time until the rows are exhausted.
The source always calls it with `C = CHUNK_SIZE = 8000 ≥ 1`. -/
def chunkRows (C : Nat) (rows : List String) : List (List String) :=
  match rows with
  | [] => []
  | r :: rs => (r :: rs.take (C - 1)) :: chunkRows C (rs.drop (C - 1))
termination_by rows.length
decreasing_by
  simp only [List.length_drop, List.length_cons]
  omega

/-- The chunker of the chunked upload route: each slice of at most
`CHUNK_SIZE` data rows becomes a standalone unit `[headers, ...chunkRows]`. -/
def mkChunks (headers : String) (dataRows : List String) : List (List String) :=
  (chunkRows CHUNK_SIZE dataRows).map (fun c => headers :: c)

/-- The structured result the edge function returns for one chunk
(`BulkProcessResult` sans `fileName`). -/
structure ApplyResult where
  success : Bool
  inserted : Nat
  updated : Nat
  errors : List String
  processingTime : Nat
  totalRecords : Nat
deriving DecidableEq

/-- How one chunk's staging-and-invocation resolves, as observed by the
orchestrator loop of the chunked upload route:
`stageFail` - the storage upload returned `uploadError` (the loop throws
before invoking); `invokeFail` - `functions.invoke` returned `functionError`
(non-2xx or transport failure); `applied` - the invocation returned a parsed
`BulkProcessResult` (possibly with row-level `errors`). -/
inductive ChunkOutcome where
  | stageFail (msg : String)
  | invokeFail (msg : String)
  | applied (res : ApplyResult)
deriving DecidableEq

/-- One element of `chunkResults` in the chunked upload route. -/
structure ChunkEntry where
  chunkNumber : Nat
  records : Nat
  inserted : Nat
  updated : Nat
  errors : List String
  processingTime : Nat
deriving DecidableEq

/-- The running totals and per-chunk list the loop accumulates. -/
structure LoopAcc where
  entries : List ChunkEntry
  totalInserted : Nat
  totalUpdated : Nat
  totalErrors : Nat
deriving DecidableEq

/-- The `ChunkProcessResult` of the chunked upload route. -/
structure ChunkProcessResult where
  success : Bool
  totalRecords : Nat
  totalInserted : Nat
  totalUpdated : Nat
  totalErrors : Nat
  chunks : List ChunkEntry
deriving DecidableEq

/-- The sequential `for` loop over the chunks of the chunked upload route,
processing chunk `k, k+1, ...` in order.  Each chunk is paired with how its
staging/invocation resolved.  A successful invocation records the reported
counts and row-level errors (`totalErrors += errors.length`); a staging or
invocation failure is caught, recorded as a failed entry with the thrown
message, `totalErrors += 1`, and the loop advances to the next chunk. -/
def runChunkLoop (k : Nat) (pairs : List (List String × ChunkOutcome)) : LoopAcc :=
  match pairs with
  | [] => ⟨[], 0, 0, 0⟩
  | (c, o) :: rest =>
    let acc := runChunkLoop (k + 1) rest
    match o with
    | ChunkOutcome.applied r =>
      ⟨⟨k, c.length - 1, r.inserted, r.updated, r.errors, r.processingTime⟩ :: acc.entries,
        r.inserted + acc.totalInserted, r.updated + acc.totalUpdated,
        r.errors.length + acc.totalErrors⟩
    | ChunkOutcome.stageFail m =>
      ⟨⟨k, c.length - 1, 0, 0, ["Failed to upload chunk " ++ Nat.repr k ++ ": " ++ m], 0⟩
          :: acc.entries,
        acc.totalInserted, acc.totalUpdated, 1 + acc.totalErrors⟩
    | ChunkOutcome.invokeFail m =>
      ⟨⟨k, c.length - 1, 0, 0, ["Edge Function failed for chunk " ++ Nat.repr k ++ ": " ++ m], 0⟩
          :: acc.entries,
        acc.totalInserted, acc.totalUpdated, 1 + acc.totalErrors⟩

/-- The non-streaming chunked upload handler after header normalization:
split the data rows into chunks, run the sequential loop (chunk numbering
starts at 1), and assemble the final `ChunkProcessResult` with
`success := totalErrors === 0` and `totalRecords := dataRows.length`. -/
def processChunks (dataRows : List String) (headers : String)
    (outcomes : List ChunkOutcome) : ChunkProcessResult :=
  let chunks := mkChunks headers dataRows
  let acc := runChunkLoop 1 (chunks.zip outcomes)
  ⟨acc.totalErrors == 0, dataRows.length, acc.totalInserted, acc.totalUpdated,
    acc.totalErrors, acc.entries⟩

/-- The reported inserted counts of the outcomes whose invocation returned a
result (the succeeded chunks). -/
def appliedResults (outcomes : List ChunkOutcome) : List ApplyResult :=
  outcomes.filterMap (fun o =>
    match o with
    | ChunkOutcome.applied r => some r
    | _ => none)

/-- The error weight one outcome contributes to `totalErrors`:
`errors.length` for a returned result, `1` for a caught chunk failure. -/
def outcomeErrorWeight (o : ChunkOutcome) : Nat :=
  match o with
  | ChunkOutcome.applied r => r.errors.length
  | ChunkOutcome.stageFail _ => 1
  | ChunkOutcome.invokeFail _ => 1

/-- Whether an outcome is a returned invocation result. -/
def isApplied (o : ChunkOutcome) : Bool :=
  match o with
  | ChunkOutcome.applied _ => true
  | _ => false

/-- Whether an outcome is a failed invocation (uploaded, then
`functions.invoke` failed). -/
def isInvokeFail (o : ChunkOutcome) : Bool :=
  match o with
  | ChunkOutcome.invokeFail _ => true
  | _ => false

/-- The `csv-uploads` bucket contents across one chunk's lifecycle, as the
source manipulates them.  Staging failure persists nothing.  A failed
invocation leaves the uploaded artifact in place: neither the orchestrator
loop of the chunked upload route nor the edge function's catch block removes
it.  A returned invocation result means the edge function ran through its
cleanup step `storage.from('csv-uploads').remove([fileName])`. -/
def stagedAfterChunk (staged : List String) (name : String) (o : ChunkOutcome) :
    List String :=
  match o with
  | ChunkOutcome.stageFail _ => staged
  | ChunkOutcome.invokeFail _ => staged ++ [name]
  | ChunkOutcome.applied _ => (staged ++ [name]).erase name

/-- The bucket contents after the whole chunk loop of one run, each chunk
paired with its staged name and outcome. -/
def runStorage (staged : List String) (pairs : List (String × ChunkOutcome)) :
    List String :=
  match pairs with
  | [] => staged
  | (name, o) :: rest => runStorage (stagedAfterChunk staged name o) rest

/-- The encoding-fallback ladder of the upload routes: try
`TextDecoder('shift-jis')`, on a thrown decode error fall back to
`TextDecoder('utf-8')`, and finally to `file.text()`.  The two decoder
attempts are modelled by their observable outcome (the decoded string, or a
thrown error); `file.text()` is modelled as always producing a string, per
the platform's lossy UTF-8 decode. -/
def decodeContent (sjis : Except String String) (utf8 : Except String String)
    (dflt : String) : String :=
  match sjis with
  | Except.ok s => s
  | Except.error _ =>
    match utf8 with
    | Except.ok s => s
    | Except.error _ => dflt

/-- The Unicode replacement character a non-fatal decoder substitutes for
malformed byte sequences. -/
def replacementChar : Char := '�'

/-- The chunk staging name of the chunked upload route:
`chunk-(Date.now())-(chunkNumber).csv`, where `now` is the millisecond
timestamp observed when the chunk is staged. -/
def chunkFileName (now : Nat) (chunkNumber : Nat) : String :=
  "chunk-" ++ Nat.repr now ++ "-" ++ Nat.repr chunkNumber ++ ".csv"

/-- One run (job) of the chunked upload route, for reasoning about staged
names across concurrent runs: a run identity and the `Date.now()` values
observed when each of its chunks is staged.  The source derives staged names
from the timestamps and chunk numbers only; `jobId` models which run it is. -/
structure JobRun where
  jobId : Nat
  stageTimes : List Nat
deriving DecidableEq

/-- The staged names a run generates: chunk `i+1` is staged at
`stageTimes[i]`. -/
def runStagedNames (j : JobRun) : List String :=
  ((List.range j.stageTimes.length).zip j.stageTimes).map
    (fun p => chunkFileName p.2 (p.1 + 1))

/-- Specification of the decimal digit string of a `Nat`, most significant
digit first, used to relate `Nat.repr` to the number it prints. -/
def natDigits (n : Nat) : List Char :=
  if _h : n < 10 then [Nat.digitChar n]
  else natDigits (n / 10) ++ [Nat.digitChar (n % 10)]
termination_by n
decreasing_by
  exact Nat.div_lt_self (by omega) (by omega)

/-- The numeric value of a decimal digit character. -/
def digitVal (c : Char) : Nat := c.toNat - 48

/-- Read a decimal digit string back into the `Nat` it denotes. -/
def decodeDigits (l : List Char) : Nat :=
  l.foldl (fun a c => 10 * a + digitVal c) 0

/-- A CSV row after header normalization and parsing with the English
headers: each of the 26 canonical fields is a string, or absent
(`undefined`/missing column in the source's `Record<string, unknown>`). -/
structure EnglishRow where
  arrangement_method : Option String
  inspection_type : Option String
  customer_name : Option String
  part_number : Option String
  production_order_number : Option String
  line_code : Option String
  work_area : Option String
  operator_main : Option String
  operator_plating : Option String
  plating_type : Option String
  plating_jig : Option String
  issue_date : Option String
  plating_payout_date : Option String
  due_date : Option String
  order_quantity : Option String
  oohito_shipment_date : Option String
  plating_process : Option String
  tamagawa_receipt_date : Option String
  operator_5x : Option String
  shelf_number : Option String
  plating_capacity : Option String
  bending_count : Option String
  brazing_count : Option String
  machine_number : Option String
  brazing_jig : Option String
  subcontractor : Option String
deriving DecidableEq

/-- A record of the `productions` table as built by
`englishCSVRowToProduction`: text columns, integer columns and ISO-date
string columns, each nullable. -/
structure Production where
  arrangement_method : Option String
  inspection_type : Option String
  customer_name : Option String
  part_number : Option String
  production_order_number : Option String
  line_code : Option String
  work_area : Option String
  operator_main : Option String
  operator_plating : Option String
  plating_type : Option String
  plating_jig : Option String
  issue_date : Option String
  plating_payout_date : Option String
  due_date : Option String
  order_quantity : Option Int
  oohito_shipment_date : Option String
  plating_process : Option String
  tamagawa_receipt_date : Option String
  operator_5x : Option String
  shelf_number : Option String
  plating_capacity : Option Int
  bending_count : Option Int
  brazing_count : Option Int
  machine_number : Option String
  brazing_jig : Option String
  subcontractor : Option String
deriving DecidableEq

/-- The null test shared by all `safeParse*` helpers of
`src/lib/csv-mapper.ts`: the value is absent, falsy (the empty string),
or trims to the empty string or to the sentinel `"0"`. -/
def isNullish (value : Option String) : Bool :=
  match value with
  | none => true
  | some s => s == "" || jsTrim s == "" || jsTrim s == "0"

/-- `safeParseString`: `null` for nullish values, else the trimmed string. -/
def safeParseString (value : Option String) : Option String :=
  if isNullish value then none
  else value.map jsTrim

/-- `safeTruncateString`: `null` for nullish values, else the trimmed string
cut to its first `maxLength` characters (`str.substring(0, maxLength)`). -/
def safeTruncateString (value : Option String) (maxLength : Nat) : Option String :=
  if isNullish value then none
  else value.map (fun s => jsTake (jsTrim s) maxLength)

/-- Whether a string is exactly eight decimal digits (`/^\d{8}$/`). -/
def isEightDigits (s : String) : Bool :=
  s.data.length == 8 && s.data.all Char.isDigit

/-- Whether a string matches `/^\d{4}-\d{2}-\d{2}$/`. -/
def isIsoDate (s : String) : Bool :=
  match s.data with
  | [y1, y2, y3, y4, d1, m1, m2, d2, a1, a2] =>
    y1.isDigit && y2.isDigit && y3.isDigit && y4.isDigit && d1 == '-' &&
      m1.isDigit && m2.isDigit && d2 == '-' && a1.isDigit && a2.isDigit
  | _ => false

/-- `safeParseDate`: `null` for nullish values; `YYYYMMDD` becomes
`YYYY-MM-DD`; an already well-formed `YYYY-MM-DD` passes through.  The final
source branch hands any other shape to the host's `new Date(...)` parser and
keeps its ISO date on success; that host parser is outside the repository and
is modelled conservatively as accepting nothing, which no theorem below
depends on. -/
def safeParseDate (value : Option String) : Option String :=
  if isNullish value then none
  else
    match value with
    | none => none
    | some s =>
      let dateStr := jsTrim s
      if isEightDigits dateStr then
        some (jsTake dateStr 4 ++ "-" ++ jsTake (⟨dateStr.data.drop 4⟩ : String) 2 ++
          "-" ++ jsTake (⟨dateStr.data.drop 6⟩ : String) 2)
      else if isIsoDate dateStr then some dateStr
      else none

/-- Model of JavaScript `parseInt(s, 10)`: an optional sign followed by at
least one decimal digit; trailing non-digits are ignored; no digits is NaN,
modelled as `none`. -/
def jsParseInt (s : String) : Option Int :=
  let signAndDigits : Int × List Char :=
    match s.data with
    | '-' :: cs => (-1, cs)
    | '+' :: cs => (1, cs)
    | cs => (1, cs)
  let digits := signAndDigits.2.takeWhile Char.isDigit
  if digits.isEmpty then none
  else some (signAndDigits.1 * (decodeDigits digits : Nat))

/-- `safeParseInt`: `null` for nullish values, else `parseInt(trimmed, 10)`,
with NaN mapped to `null`. -/
def safeParseInt (value : Option String) : Option Int :=
  if isNullish value then none
  else
    match value with
    | none => none
    | some s => jsParseInt (jsTrim s)

/-- `englishCSVRowToProduction` from `src/lib/csv-mapper.ts`: field-by-field
conversion; `customer_name` keeps only its first 4 characters and
`line_code` only its first character. -/
def englishCSVRowToProduction (row : EnglishRow) : Production :=
  { arrangement_method := safeParseString row.arrangement_method
    inspection_type := safeParseString row.inspection_type
    customer_name := safeTruncateString row.customer_name 4
    part_number := safeParseString row.part_number
    production_order_number := safeParseString row.production_order_number
    line_code := safeTruncateString row.line_code 1
    work_area := safeParseString row.work_area
    operator_main := safeParseString row.operator_main
    operator_plating := safeParseString row.operator_plating
    plating_type := safeParseString row.plating_type
    plating_jig := safeParseString row.plating_jig
    issue_date := safeParseDate row.issue_date
    plating_payout_date := safeParseDate row.plating_payout_date
    due_date := safeParseDate row.due_date
    order_quantity := safeParseInt row.order_quantity
    oohito_shipment_date := safeParseDate row.oohito_shipment_date
    plating_process := safeParseString row.plating_process
    tamagawa_receipt_date := safeParseDate row.tamagawa_receipt_date
    operator_5x := safeParseString row.operator_5x
    shelf_number := safeParseString row.shelf_number
    plating_capacity := safeParseInt row.plating_capacity
    bending_count := safeParseInt row.bending_count
    brazing_count := safeParseInt row.brazing_count
    machine_number := safeParseString row.machine_number
    brazing_jig := safeParseString row.brazing_jig
    subcontractor := safeParseString row.subcontractor }

/-- Modelled from the spec: the canonical `productions` store, "one record
type keyed uniquely by the business identifier field"
(`production_order_number`), as a map from business-key value to the stored
record.  The store itself is Postgres, outside this repository; only the
write contract matters, and the spec fixes it to insert-or-update keyed by
the business field.  Rows whose business key is null are forwarded
unvalidated; this model treats the null key as one more key value. -/
def StoreState : Type := Option String → Option Production

/-- Modelled from the spec: one row's insert-or-update ("reconciliation is a
conflict-resolving upsert, not an append"): the record stored under the
row's business key becomes the row; every other key is untouched. -/
def upsertRow (store : StoreState) (row : Production) : StoreState :=
  fun k => if k = row.production_order_number then some row else store k

/-- The edge function's batched apply step: each batch row is written with
`upsert(..., { onConflict: 'production_order_number' })`, in order. -/
def upsertBatch (store : StoreState) (rows : List Production) : StoreState :=
  rows.foldl upsertRow store

/-- The last row of `rows` carrying the business key `k`, the winner of the
in-order upserts for that key. -/
def lastRowWith (k : Option String) (rows : List Production) : Option Production :=
  (rows.filter (fun r => r.production_order_number == k)).getLast?

/-- The store with no records, for concrete store examples. -/
def emptyStore : StoreState := fun _ => none

/-- A concrete production row (business key `MY25806000349`, the sample
order number of the source's comments), for concrete store examples. -/
def sampleRow : Production :=
  { arrangement_method := some "0"
    inspection_type := none
    customer_name := some "2101"
    part_number := some "ME012386-B-S1"
    production_order_number := some "MY25806000349"
    line_code := some "F"
    work_area := none
    operator_main := none
    operator_plating := none
    plating_type := none
    plating_jig := none
    issue_date := none
    plating_payout_date := some "2025-09-04"
    due_date := some "2025-09-08"
    order_quantity := some 120
    oohito_shipment_date := none
    plating_process := none
    tamagawa_receipt_date := none
    operator_5x := none
    shelf_number := some "LS10"
    plating_capacity := some 120
    bending_count := some 4
    brazing_count := some 4
    machine_number := none
    brazing_jig := none
    subcontractor := none }

/-- A concrete parsed CSV row, for concrete conversion examples. -/
def sampleEnglishRow : EnglishRow :=
  { arrangement_method := some "0"
    inspection_type := some "1"
    customer_name := some " 21011 "
    part_number := some "ME012386-B-S1"
    production_order_number := some "MY25806000349"
    line_code := some "F64217"
    work_area := some "4217"
    operator_main := some "7769"
    operator_plating := some "6310"
    plating_type := some ""
    plating_jig := some ""
    issue_date := some "0"
    plating_payout_date := some "20250904"
    due_date := some "20250908"
    order_quantity := some "120"
    oohito_shipment_date := some ""
    plating_process := some ""
    tamagawa_receipt_date := some ""
    operator_5x := some "6246"
    shelf_number := some "LS10"
    plating_capacity := some "120"
    bending_count := some "4"
    brazing_count := some "4"
    machine_number := some ""
    brazing_jig := some " A"
    subcontractor := some "" }

/-- The sample row with a sentinel-zero business key, for concrete
conversion examples. -/
def sampleEnglishRowZero : EnglishRow :=
  { sampleEnglishRow with production_order_number := some "0" }

/-! ## Chunker lemmas -/

theorem chunkRows_join_bounded (C : Nat) :
    ∀ (n : Nat) (rows : List String), rows.length ≤ n →
      (chunkRows C rows).flatten = rows := by
  intro n
  induction n with
  | zero =>
    intro rows h
    have hrows : rows = [] := List.eq_nil_of_length_eq_zero (Nat.le_zero.mp h)
    subst hrows
    simp [chunkRows]
  | succ n ih =>
    intro rows h
    match rows with
    | [] => simp [chunkRows]
    | r :: rs =>
      have hlen : (rs.drop (C - 1)).length ≤ n := by
        simp only [List.length_drop]
        simp only [List.length_cons] at h
        omega
      simp only [chunkRows, List.flatten_cons, ih _ hlen, List.cons_append,
        List.take_append_drop]

theorem chunkRows_length_bounded (C : Nat) (hC : 0 < C) :
    ∀ (n : Nat) (rows : List String), rows.length ≤ n →
      (chunkRows C rows).length = (rows.length + C - 1) / C := by
  intro n
  induction n with
  | zero =>
    intro rows h
    have hrows : rows = [] := List.eq_nil_of_length_eq_zero (Nat.le_zero.mp h)
    subst hrows
    simp only [chunkRows, List.length_nil, Nat.zero_add]
    rw [Nat.div_eq_of_lt (by omega)]
  | succ n ih =>
    intro rows h
    match rows with
    | [] =>
      simp only [chunkRows, List.length_nil, Nat.zero_add]
      rw [Nat.div_eq_of_lt (by omega)]
    | r :: rs =>
      have hlen : (rs.drop (C - 1)).length ≤ n := by
        simp only [List.length_drop]
        simp only [List.length_cons] at h
        omega
      simp only [chunkRows, List.length_cons, ih _ hlen, List.length_drop]
      rcases Nat.lt_or_ge rs.length (C - 1) with hm | hm
      · have h1 : rs.length - (C - 1) = 0 := by omega
        have h2 : (0 + C - 1) / C = 0 := Nat.div_eq_of_lt (by omega)
        have h3 : rs.length + 1 + C - 1 = rs.length + C := by omega
        have h4 : rs.length / C = 0 := Nat.div_eq_of_lt (by omega)
        rw [h1, h2, h3, Nat.add_div_right _ hC, h4]
      · have h1 : rs.length - (C - 1) + C - 1 = rs.length := by omega
        have h3 : rs.length + 1 + C - 1 = rs.length + C := by omega
        rw [h1, h3, Nat.add_div_right _ hC]

theorem chunkRows_shape_bounded (C : Nat) (hC : 0 < C) :
    ∀ (n : Nat) (rows : List String), rows.length ≤ n →
      ∀ c ∈ chunkRows C rows, c ≠ [] ∧ c.length ≤ C := by
  intro n
  induction n with
  | zero =>
    intro rows h
    have hrows : rows = [] := List.eq_nil_of_length_eq_zero (Nat.le_zero.mp h)
    subst hrows
    simp [chunkRows]
  | succ n ih =>
    intro rows h
    match rows with
    | [] => simp [chunkRows]
    | r :: rs =>
      have hlen : (rs.drop (C - 1)).length ≤ n := by
        simp only [List.length_drop]
        simp only [List.length_cons] at h
        omega
      intro c hc
      simp only [chunkRows, List.mem_cons] at hc
      rcases hc with hc | hc
      · subst hc
        refine ⟨by simp, ?_⟩
        simp only [List.length_cons, List.length_take]
        omega
      · exact ih _ hlen c hc

theorem mkChunks_map_tail (headers : String) (dataRows : List String) :
    (mkChunks headers dataRows).map List.tail = chunkRows CHUNK_SIZE dataRows := by
  rw [mkChunks, List.map_map]
  have h : (List.tail ∘ fun c => headers :: c) = id := by
    funext c
    rfl
  rw [h, List.map_id]

theorem count_sum_eq_count_flatten (L : List (List String)) (s : String) :
    (L.map (fun l => l.count s)).sum = L.flatten.count s := by
  induction L with
  | nil => simp
  | cons l ls ih => simp [List.count_append, ih]

/-- C1: with the configured chunk ceiling `CHUNK_SIZE = 8000`, the chunker
produces exactly `⌈N / 8000⌉` chunks for `N` data rows (`0` when `N = 0`);
every chunk is the header line followed by at most `8000` (and at least one)
data rows; concatenating the chunks' data rows in chunk order reproduces the
original rows in their original order; and every row value occurs across the
chunks exactly as often as in the input, so no row lands in zero or two
chunks. -/
theorem claim_c1 (headers : String) (dataRows : List String) :
    (mkChunks headers dataRows).length = (dataRows.length + CHUNK_SIZE - 1) / CHUNK_SIZE
    ∧ (∀ c ∈ mkChunks headers dataRows,
        ∃ d, c = headers :: d ∧ d ≠ [] ∧ d.length ≤ CHUNK_SIZE)
    ∧ ((mkChunks headers dataRows).map List.tail).flatten = dataRows
    ∧ (∀ s, ((mkChunks headers dataRows).map (fun c => c.tail.count s)).sum
        = dataRows.count s) := by
  have hC : 0 < CHUNK_SIZE := by simp [CHUNK_SIZE]
  refine ⟨?_, ?_, ?_, ?_⟩
  · rw [mkChunks, List.length_map]
    exact chunkRows_length_bounded CHUNK_SIZE hC dataRows.length dataRows le_rfl
  · intro c hc
    rw [mkChunks, List.mem_map] at hc
    obtain ⟨d, hd, rfl⟩ := hc
    obtain ⟨hne, hlen⟩ :=
      chunkRows_shape_bounded CHUNK_SIZE hC dataRows.length dataRows le_rfl d hd
    exact ⟨d, rfl, hne, by simpa using hlen⟩
  · rw [mkChunks_map_tail]
    exact chunkRows_join_bounded CHUNK_SIZE dataRows.length dataRows le_rfl
  · intro s
    have h1 : (mkChunks headers dataRows).map (fun c => c.tail.count s)
        = ((mkChunks headers dataRows).map List.tail).map (fun l => l.count s) := by
      simp [List.map_map, Function.comp]
    rw [h1, count_sum_eq_count_flatten, mkChunks_map_tail,
      chunkRows_join_bounded CHUNK_SIZE dataRows.length dataRows le_rfl]

/-- Witness for C1 at a concrete input: the single chunk of a one-row file
is the header followed by that row. -/
theorem claim_c1_witness :
    (["h", "a"] : List String) ∈ mkChunks "h" ["a"]
    ∧ ∃ d, (["h", "a"] : List String) = "h" :: d ∧ d ≠ [] ∧ d.length ≤ CHUNK_SIZE := by
  have hmem : (["h", "a"] : List String) ∈ mkChunks "h" ["a"] := by
    simp [mkChunks, chunkRows]
  exact ⟨hmem, (claim_c1 "h" ["a"]).2.1 ["h", "a"] hmem⟩

/-- C8: an input with zero data rows yields zero chunks, the loop stages and
invokes nothing (no entries regardless of what the external world would have
answered), and the job reports immediate success with the empty aggregate. -/
theorem claim_c8 (headers : String) (outcomes : List ChunkOutcome) :
    mkChunks headers [] = []
    ∧ processChunks [] headers outcomes =
        ⟨true, 0, 0, 0, 0, []⟩ := by
  have hnil : mkChunks headers [] = [] := by simp [mkChunks, chunkRows]
  refine ⟨hnil, ?_⟩
  simp [processChunks, hnil, runChunkLoop]

/-! ## Orchestrator loop lemmas -/

theorem runChunkLoop_entries_length (k : Nat)
    (pairs : List (List String × ChunkOutcome)) :
    (runChunkLoop k pairs).entries.length = pairs.length := by
  induction pairs generalizing k with
  | nil => simp [runChunkLoop]
  | cons p rest ih =>
    obtain ⟨c, o⟩ := p
    cases o <;> simp [runChunkLoop, ih]

theorem runChunkLoop_chunkNumbers (k : Nat)
    (pairs : List (List String × ChunkOutcome)) :
    (runChunkLoop k pairs).entries.map (fun e => e.chunkNumber)
      = List.range' k pairs.length := by
  induction pairs generalizing k with
  | nil => simp [runChunkLoop]
  | cons p rest ih =>
    obtain ⟨c, o⟩ := p
    cases o <;> simp [runChunkLoop, ih, List.range'_succ]

theorem runChunkLoop_totalInserted (k : Nat)
    (pairs : List (List String × ChunkOutcome)) :
    (runChunkLoop k pairs).totalInserted
      = ((appliedResults (pairs.map Prod.snd)).map (fun r => r.inserted)).sum := by
  induction pairs generalizing k with
  | nil => simp [runChunkLoop, appliedResults]
  | cons p rest ih =>
    obtain ⟨c, o⟩ := p
    cases o <;> simp [runChunkLoop, ih, appliedResults]

theorem runChunkLoop_totalUpdated (k : Nat)
    (pairs : List (List String × ChunkOutcome)) :
    (runChunkLoop k pairs).totalUpdated
      = ((appliedResults (pairs.map Prod.snd)).map (fun r => r.updated)).sum := by
  induction pairs generalizing k with
  | nil => simp [runChunkLoop, appliedResults]
  | cons p rest ih =>
    obtain ⟨c, o⟩ := p
    cases o <;> simp [runChunkLoop, ih, appliedResults]

theorem runChunkLoop_totalErrors (k : Nat)
    (pairs : List (List String × ChunkOutcome)) :
    (runChunkLoop k pairs).totalErrors
      = ((pairs.map Prod.snd).map outcomeErrorWeight).sum := by
  induction pairs generalizing k with
  | nil => simp [runChunkLoop]
  | cons p rest ih =>
    obtain ⟨c, o⟩ := p
    cases o <;> simp [runChunkLoop, ih, outcomeErrorWeight]

/-- C4: with one resolution per chunk, every chunk receives an entry (the
per-chunk failure is caught and the loop advances through chunks `k+1..last`,
numbering them in order), and the final totals for inserted and updated rows
are the sums of only the succeeded chunks' reported counts - failed chunks
contribute nothing. -/
theorem claim_c4 (chunks : List (List String)) (outcomes : List ChunkOutcome)
    (h : outcomes.length = chunks.length) :
    (runChunkLoop 1 (chunks.zip outcomes)).entries.length = chunks.length
    ∧ (runChunkLoop 1 (chunks.zip outcomes)).entries.map (fun e => e.chunkNumber)
        = List.range' 1 chunks.length
    ∧ (runChunkLoop 1 (chunks.zip outcomes)).totalInserted
        = ((appliedResults outcomes).map (fun r => r.inserted)).sum
    ∧ (runChunkLoop 1 (chunks.zip outcomes)).totalUpdated
        = ((appliedResults outcomes).map (fun r => r.updated)).sum := by
  have hzlen : (chunks.zip outcomes).length = chunks.length := by
    rw [List.length_zip, h, Nat.min_self]
  have hsnd : (chunks.zip outcomes).map Prod.snd = outcomes :=
    List.map_snd_zip chunks outcomes (le_of_eq h)
  refine ⟨?_, ?_, ?_, ?_⟩
  · rw [runChunkLoop_entries_length, hzlen]
  · rw [runChunkLoop_chunkNumbers, hzlen]
  · rw [runChunkLoop_totalInserted, hsnd]
  · rw [runChunkLoop_totalUpdated, hsnd]

/-- Witness for C4: chunk 1 fails at staging, chunk 2 is still attempted and
its reported counts alone make up the totals. -/
theorem claim_c4_witness :
    ([ChunkOutcome.stageFail "disk full",
      ChunkOutcome.applied ⟨true, 2, 1, [], 5, 3⟩] : List ChunkOutcome).length
      = ([["h", "r1"], ["h", "r2"]] : List (List String)).length
    ∧ ((runChunkLoop 1 (([["h", "r1"], ["h", "r2"]] : List (List String)).zip
          [ChunkOutcome.stageFail "disk full",
           ChunkOutcome.applied ⟨true, 2, 1, [], 5, 3⟩])).entries.length
        = ([["h", "r1"], ["h", "r2"]] : List (List String)).length
      ∧ (runChunkLoop 1 (([["h", "r1"], ["h", "r2"]] : List (List String)).zip
          [ChunkOutcome.stageFail "disk full",
           ChunkOutcome.applied ⟨true, 2, 1, [], 5, 3⟩])).entries.map
            (fun e => e.chunkNumber)
        = List.range' 1 ([["h", "r1"], ["h", "r2"]] : List (List String)).length
      ∧ (runChunkLoop 1 (([["h", "r1"], ["h", "r2"]] : List (List String)).zip
          [ChunkOutcome.stageFail "disk full",
           ChunkOutcome.applied ⟨true, 2, 1, [], 5, 3⟩])).totalInserted
        = ((appliedResults [ChunkOutcome.stageFail "disk full",
            ChunkOutcome.applied ⟨true, 2, 1, [], 5, 3⟩]).map
              (fun r => r.inserted)).sum
      ∧ (runChunkLoop 1 (([["h", "r1"], ["h", "r2"]] : List (List String)).zip
          [ChunkOutcome.stageFail "disk full",
           ChunkOutcome.applied ⟨true, 2, 1, [], 5, 3⟩])).totalUpdated
        = ((appliedResults [ChunkOutcome.stageFail "disk full",
            ChunkOutcome.applied ⟨true, 2, 1, [], 5, 3⟩]).map
              (fun r => r.updated)).sum) :=
  ⟨rfl, claim_c4 [["h", "r1"], ["h", "r2"]]
      [ChunkOutcome.stageFail "disk full",
       ChunkOutcome.applied ⟨true, 2, 1, [], 5, 3⟩] rfl⟩

/-- C3, counterexample: a job whose single chunk's invocation SUCCEEDED (the
edge function returned a result - no chunk failed at all) but carried one
row-level error in `errors[]` is reported with `success = false` (hence the
HTTP 500 / failure-shaped response), contradicting both "failed only if every
chunk failed" and "row-level errors ... do not make the chunk (or the job)
count as failed". -/
theorem claim_c3_counterexample :
    isApplied (ChunkOutcome.applied ⟨true, 1, 0, ["row 7: null key"], 3, 1⟩) = true
    ∧ (processChunks ["r1"] "h"
        [ChunkOutcome.applied ⟨true, 1, 0, ["row 7: null key"], 3, 1⟩]).success = false
    ∧ (processChunks ["r1"] "h"
        [ChunkOutcome.applied ⟨true, 1, 0, ["row 7: null key"], 3, 1⟩]).totalInserted
        = 1 := by
  refine ⟨rfl, ?_, ?_⟩ <;>
    simp [processChunks, mkChunks, chunkRows, runChunkLoop]

/-- C3, amended: the job is reported as success exactly when `totalErrors = 0`,
i.e. when every chunk's invocation returned a result carrying an empty
row-level error list.  Any failed chunk, or any row-level error inside a
succeeded chunk, makes the terminal report the failure-shaped one (there is
no separate partial-success status; the failure response does carry the
processed counts). -/
theorem claim_c3_amended (dataRows : List String) (headers : String)
    (outcomes : List ChunkOutcome)
    (h : outcomes.length = (mkChunks headers dataRows).length) :
    (processChunks dataRows headers outcomes).success = true
      ↔ ∀ o ∈ outcomes, ∃ r, o = ChunkOutcome.applied r ∧ r.errors = [] := by
  have hsnd : ((mkChunks headers dataRows).zip outcomes).map Prod.snd = outcomes :=
    List.map_snd_zip _ outcomes (le_of_eq h)
  simp only [processChunks, beq_iff_eq, runChunkLoop_totalErrors, hsnd]
  rw [List.sum_eq_zero_iff]
  constructor
  · intro hall o ho
    have hw : outcomeErrorWeight o = 0 :=
      hall (outcomeErrorWeight o) (List.mem_map_of_mem outcomeErrorWeight ho)
    cases o with
    | applied r =>
      exact ⟨r, rfl, List.length_eq_zero.mp (by simpa [outcomeErrorWeight] using hw)⟩
    | stageFail m => simp [outcomeErrorWeight] at hw
    | invokeFail m => simp [outcomeErrorWeight] at hw
  · intro hall x hx
    rw [List.mem_map] at hx
    obtain ⟨o, ho, rfl⟩ := hx
    obtain ⟨r, rfl, hr⟩ := hall o ho
    simp [outcomeErrorWeight, hr]

/-- Witness for the amended C3: a clean single-chunk run reports success. -/
theorem claim_c3_amended_witness :
    ([ChunkOutcome.applied ⟨true, 1, 0, [], 3, 1⟩] : List ChunkOutcome).length
      = (mkChunks "h" ["r1"]).length
    ∧ ((processChunks ["r1"] "h"
          [ChunkOutcome.applied ⟨true, 1, 0, [], 3, 1⟩]).success = true
        ↔ ∀ o ∈ ([ChunkOutcome.applied ⟨true, 1, 0, [], 3, 1⟩] : List ChunkOutcome),
            ∃ r, o = ChunkOutcome.applied r ∧ r.errors = []) :=
  ⟨by simp [mkChunks, chunkRows],
    claim_c3_amended ["r1"] "h" [ChunkOutcome.applied ⟨true, 1, 0, [], 3, 1⟩]
      (by simp [mkChunks, chunkRows])⟩

/-- C5, counterexample: a chunk that is staged and whose invocation then
fails leaves its artifact in the `csv-uploads` bucket after the chunk has
resolved (and the run has ended) - the orchestrator loop performs no
delete-by-reference at all, and the edge function's cleanup only runs when
the invocation returns a result.  This contradicts "no staged artifact
remains ... once its chunk has resolved". -/
theorem claim_c5_counterexample :
    runStorage []
        [("chunk-1756400000000-1.csv", ChunkOutcome.invokeFail "transport error")]
      = ["chunk-1756400000000-1.csv"]
    ∧ (["chunk-1756400000000-1.csv"] : List String) ≠ [] := by
  exact ⟨rfl, by decide⟩

/-- C5, amended: deletion of a staged artifact is performed by the apply
service (edge function), not by the orchestrator, and only when the
invocation returns a result: after a run over distinctly-named chunks,
exactly the artifacts of invocation-failed chunks remain in the bucket
(staging failures persisted nothing; applied chunks were cleaned up). -/
theorem claim_c5_amended (staged : List String)
    (pairs : List (String × ChunkOutcome))
    (hnd : (staged ++ pairs.map Prod.fst).Nodup) :
    runStorage staged pairs
      = staged ++ (pairs.filter (fun p => isInvokeFail p.2)).map Prod.fst := by
  induction pairs generalizing staged with
  | nil => simp [runStorage]
  | cons p rest ih =>
    obtain ⟨name, o⟩ := p
    have hdisj : staged.Disjoint (name :: rest.map Prod.fst) :=
      List.disjoint_of_nodup_append (by simpa using hnd)
    have hname : name ∉ staged := fun hmem => hdisj hmem (List.mem_cons_self _ _)
    have hnd' : (staged ++ rest.map Prod.fst).Nodup := by

      refine List.Nodup.sublist (List.Sublist.append_left ?_ staged) (by simpa using hnd)
      exact List.sublist_cons_self name (rest.map Prod.fst)
    cases o with
    | stageFail m =>
      rw [runStorage]
      simp only [stagedAfterChunk]
      rw [ih staged hnd']
      simp [isInvokeFail]
    | invokeFail m =>
      rw [runStorage]
      simp only [stagedAfterChunk]
      have hnd2 : ((staged ++ [name]) ++ rest.map Prod.fst).Nodup := by
        simpa [List.append_assoc] using hnd
      rw [ih (staged ++ [name]) (by simpa using hnd2)]
      simp [isInvokeFail, List.append_assoc]
    | applied r =>
      rw [runStorage]
      simp only [stagedAfterChunk]
      rw [List.erase_append_right _ hname, List.erase_cons_head, List.append_nil,
        ih staged hnd']
      simp [isInvokeFail]

/-- Witness for the amended C5: a two-chunk run (one applied, one failed
invocation) over distinct names ends with only the failed chunk's artifact. -/
theorem claim_c5_amended_witness :
    (([] : List String) ++ ([("a.csv", ChunkOutcome.applied ⟨true, 1, 0, [], 5, 1⟩),
        ("b.csv", ChunkOutcome.invokeFail "boom")] :
        List (String × ChunkOutcome)).map Prod.fst).Nodup
    ∧ runStorage []
        [("a.csv", ChunkOutcome.applied ⟨true, 1, 0, [], 5, 1⟩),
         ("b.csv", ChunkOutcome.invokeFail "boom")]
      = [] ++ (([("a.csv", ChunkOutcome.applied ⟨true, 1, 0, [], 5, 1⟩),
          ("b.csv", ChunkOutcome.invokeFail "boom")] :
          List (String × ChunkOutcome)).filter
            (fun p => isInvokeFail p.2)).map Prod.fst :=
  ⟨by decide,
    claim_c5_amended []
      [("a.csv", ChunkOutcome.applied ⟨true, 1, 0, [], 5, 1⟩),
       ("b.csv", ChunkOutcome.invokeFail "boom")] (by decide)⟩

/-- C6, counterexample: the decode ladder accepts whatever the Shift-JIS
attempt returns as long as it does not throw; here the Shift-JIS result
carries a replacement character (decode corruption) while the UTF-8
alternative is corruption-free, yet the corrupted Shift-JIS text is the one
accepted - there is no "decodes without replacement-character corruption"
check in the code. -/
theorem claim_c6_counterexample :
    decodeContent (Except.ok "ab�c") (Except.ok "abc") "abc" = "ab�c"
    ∧ replacementChar ∈ "ab�c".data
    ∧ replacementChar ∉ "abc".data :=
  ⟨rfl, by decide, by decide⟩

/-- C6, amended: decoding tries Shift-JIS first and falls back to UTF-8 and
then to the platform default only when an attempt THROWS; the first
non-throwing attempt is accepted unconditionally (even if its result carries
replacement-character corruption), and in every case a string is produced, so
a decode problem never aborts the job. -/
theorem claim_c6_amended (s t dflt : String) (e e2 : String) :
    decodeContent (Except.ok s) (Except.ok t) dflt = s
    ∧ decodeContent (Except.ok s) (Except.error e2) dflt = s
    ∧ decodeContent (Except.error e) (Except.ok t) dflt = t
    ∧ decodeContent (Except.error e) (Except.error e2) dflt = dflt :=
  ⟨rfl, rfl, rfl, rfl⟩

/-! ## Upsert store lemmas -/

theorem lastRowWith_none_iff (k : Option String) (rows : List Production) :
    lastRowWith k rows = none
      ↔ ∀ r ∈ rows, ¬(r.production_order_number == k) = true := by
  rw [lastRowWith, List.getLast?_eq_none_iff, List.filter_eq_nil_iff]

theorem lastRowWith_cons (k : Option String) (r0 : Production)
    (rest : List Production) :
    lastRowWith k (r0 :: rest)
      = if lastRowWith k rest = none
        then (if r0.production_order_number == k then some r0 else none)
        else lastRowWith k rest := by
  rw [lastRowWith, List.filter_cons]
  by_cases hp : (r0.production_order_number == k) = true
  · rw [if_pos hp]
    cases hfr : rest.filter (fun r => r.production_order_number == k) with
    | nil => simp [lastRowWith, hfr, beq_iff_eq.mp hp]
    | cons a l => simp [lastRowWith, hfr, List.getLast?_cons_cons]
  · rw [if_neg hp]
    have hne : ¬r0.production_order_number = k := fun hkk => hp (beq_iff_eq.mpr hkk)
    cases hfr : rest.filter (fun r => r.production_order_number == k) with
    | nil => simp [lastRowWith, hfr, hne]
    | cons a l => simp [lastRowWith, hfr]

theorem upsertBatch_apply_of_none (rows : List Production) (store : StoreState)
    (k : Option String) (h : lastRowWith k rows = none) :
    upsertBatch store rows k = store k := by
  induction rows generalizing store with
  | nil => rfl
  | cons r0 rest ih =>
    rw [lastRowWith_none_iff] at h
    have hrest : lastRowWith k rest = none := by
      rw [lastRowWith_none_iff]
      exact fun r hr => h r (List.mem_cons_of_mem r0 hr)
    have hk : ¬(r0.production_order_number == k) = true :=
      h r0 (List.mem_cons_self r0 rest)
    rw [upsertBatch, List.foldl_cons, ← upsertBatch, ih _ hrest, upsertRow]
    have hne : k ≠ r0.production_order_number := by
      intro hkk
      exact hk (by simp [hkk])
    simp [hne]

theorem upsertBatch_apply_of_last (rows : List Production) (store : StoreState)
    (k : Option String) (r : Production) (h : lastRowWith k rows = some r) :
    upsertBatch store rows k = some r := by
  induction rows generalizing store with
  | nil => simp [lastRowWith] at h
  | cons r0 rest ih =>
    rw [upsertBatch, List.foldl_cons, ← upsertBatch]
    rw [lastRowWith_cons] at h
    by_cases hrest : lastRowWith k rest = none
    · rw [if_pos hrest] at h
      by_cases hp : (r0.production_order_number == k) = true
      · rw [if_pos hp] at h
        obtain rfl : r0 = r := Option.some_inj.mp h
        rw [upsertBatch_apply_of_none rest _ k hrest, upsertRow]
        have hkey : k = r0.production_order_number := (beq_iff_eq.mp hp).symm
        simp [hkey]
      · rw [if_neg hp] at h
        exact absurd h (by simp)
    · rw [if_neg hrest] at h
      exact ih _ h

/-- C2: submitting the same row batch twice against the business-keyed store
yields the state of a single submission (the writes are conflict-resolving
upserts keyed by `production_order_number`, so the second run only
re-applies last-writer-wins values), and the second run really inserts
nothing: every business key vacant after the first run is still vacant after
the second, so summing per-run reconciled counts never counts a truly new
row twice. -/
theorem claim_c2 (store : StoreState) (rows : List Production) :
    upsertBatch (upsertBatch store rows) rows = upsertBatch store rows
    ∧ (∀ k, upsertBatch store rows k = none →
        upsertBatch (upsertBatch store rows) rows k = none) := by
  have hmain : upsertBatch (upsertBatch store rows) rows = upsertBatch store rows := by
    funext k
    cases hlast : lastRowWith k rows with
    | some r =>
      rw [upsertBatch_apply_of_last rows _ k r hlast,
        upsertBatch_apply_of_last rows _ k r hlast]
    | none =>
      rw [upsertBatch_apply_of_none rows _ k hlast,
        upsertBatch_apply_of_none rows _ k hlast]
  exact ⟨hmain, fun k hk => by rw [hmain]; exact hk⟩

/-- Witness for C2: upserting a concrete row twice leaves a key that neither
the store nor the row occupies vacant across both runs. -/
theorem claim_c2_witness :
    upsertBatch emptyStore [sampleRow] (some "OTHER") = none
    ∧ upsertBatch (upsertBatch emptyStore [sampleRow]) [sampleRow] (some "OTHER")
        = none :=
  ⟨by decide, (claim_c2 emptyStore [sampleRow]).2 (some "OTHER") (by decide)⟩

/-! ## Header replacement lemmas -/

theorem splitOnAux_ne_nil (s sep : String) (b i j : String.Pos) (r : List String) :
    String.splitOnAux s sep b i j r ≠ [] := by
  induction b, i, j, r using String.splitOnAux.induct s sep with
  | case1 b i j r h =>
    rw [String.splitOnAux]
    simp [h]
  | case2 b i j r h1 h2 h3 ih =>
    rw [String.splitOnAux]
    simp_all
  | case3 b i j r h1 h2 h3 ih =>
    rw [String.splitOnAux]
    simp_all
  | case4 b i j r h1 h2 ih =>
    rw [String.splitOnAux]
    simp_all

theorem splitOn_ne_nil (s sep : String) : s.splitOn sep ≠ [] := by
  rw [String.splitOn]
  split
  · simp
  · exact splitOnAux_ne_nil s sep 0 0 0 []

/-- C7: `replaceCSVHeaders` yields exactly the comma-joined canonical list of
26 English header names as the first line, followed by every line of the
input after its first, unchanged and in order.  In particular the output
depends only on the input's tail lines: two files with different (even
corrupted) header text but the same remaining lines produce identical
output, hence identical downstream field names. -/
theorem claim_c7 (s : String) :
    ENGLISH_HEADERS.length = 26
    ∧ replaceCSVHeaders s
        = String.intercalate "\n" (englishHeaderLine :: (s.splitOn "\n").tail) := by
  refine ⟨rfl, ?_⟩
  obtain ⟨a, rest, hsplit⟩ := List.exists_cons_of_ne_nil (splitOn_ne_nil s "\n")
  simp [replaceCSVHeaders, hsplit]

/-! ## Decimal representation lemmas, for staged-name uniqueness -/

theorem digitChar_isDigit (d : Nat) (hd : d < 10) :
    (Nat.digitChar d).isDigit = true := by
  interval_cases d <;> decide

theorem digitVal_digitChar (d : Nat) (hd : d < 10) :
    digitVal (Nat.digitChar d) = d := by
  interval_cases d <;> decide

theorem isDigit_ne_dash (c : Char) (h : c.isDigit = true) : c ≠ '-' := by
  intro hc
  subst hc
  simp at h

theorem natDigits_isDigit (n : Nat) : ∀ c ∈ natDigits n, c.isDigit = true := by
  induction n using natDigits.induct with
  | case1 n h =>
    rw [natDigits]
    simp only [dif_pos h, List.mem_singleton]
    intro c hc
    subst hc
    exact digitChar_isDigit n h
  | case2 n h ih =>
    rw [natDigits]
    simp only [dif_neg h]
    intro c hc
    rcases List.mem_append.mp hc with hc | hc
    · exact ih c hc
    · rw [List.mem_singleton] at hc
      subst hc
      exact digitChar_isDigit (n % 10) (Nat.mod_lt n (by omega))

theorem decodeDigits_append_singleton (A : List Char) (c : Char) :
    decodeDigits (A ++ [c]) = 10 * decodeDigits A + digitVal c := by
  rw [decodeDigits, List.foldl_append]
  rfl

theorem decodeDigits_natDigits (n : Nat) : decodeDigits (natDigits n) = n := by
  induction n using natDigits.induct with
  | case1 n h =>
    rw [natDigits]
    simp only [dif_pos h]
    show 10 * 0 + digitVal (Nat.digitChar n) = n
    rw [digitVal_digitChar n h]
    omega
  | case2 n h ih =>
    rw [natDigits]
    simp only [dif_neg h]
    rw [decodeDigits_append_singleton, ih,
      digitVal_digitChar (n % 10) (Nat.mod_lt n (by omega))]
    omega

theorem natDigits_inj (m n : Nat) (h : natDigits m = natDigits n) : m = n := by
  rw [← decodeDigits_natDigits m, ← decodeDigits_natDigits n, h]

theorem toDigitsCore_eq_natDigits :
    ∀ (f n : Nat) (acc : List Char), n < 10 ^ f → 0 < f →
      Nat.toDigitsCore 10 f n acc = natDigits n ++ acc := by
  intro f
  induction f with
  | zero => omega
  | succ f ih =>
    intro n acc hlt _hpos
    rw [Nat.toDigitsCore]
    by_cases hdiv : n / 10 = 0
    · have hn : n < 10 := by omega
      simp only [hdiv, if_true]
      rw [natDigits, dif_pos hn, Nat.mod_eq_of_lt hn]
      rfl
    · have hn : ¬n < 10 := by
        intro hlt10
        exact hdiv (Nat.div_eq_of_lt hlt10)
      simp only [hdiv, if_false]
      have hfpos : 0 < f := by
        by_contra hf
        have : f = 0 := by omega
        subst this
        have : n < 10 := by simpa using hlt
        exact hn this
      have hlt2 : n / 10 < 10 ^ f := by
        rw [Nat.div_lt_iff_lt_mul (by omega)]
        calc n < 10 ^ (f + 1) := hlt
        _ = 10 ^ f * 10 := by rw [Nat.pow_succ]
      rw [ih (n / 10) (Nat.digitChar (n % 10) :: acc) hlt2 hfpos]
      have hnd : natDigits n = natDigits (n / 10) ++ [Nat.digitChar (n % 10)] := by
        rw [natDigits, dif_neg hn]
      rw [hnd]
      simp [List.append_assoc]

theorem repr_data_eq_natDigits (n : Nat) : (Nat.repr n).data = natDigits n := by
  have h1 : n < 10 ^ (n + 1) :=
    lt_of_lt_of_le (Nat.lt_pow_self (by omega) n)
      (Nat.pow_le_pow_right (by omega) (Nat.le_succ n))
  rw [Nat.repr, Nat.toDigits, toDigitsCore_eq_natDigits (n + 1) n [] h1 (by omega),
    List.append_nil]
  rfl

theorem repr_inj (m n : Nat) (h : Nat.repr m = Nat.repr n) : m = n := by
  apply natDigits_inj
  rw [← repr_data_eq_natDigits m, ← repr_data_eq_natDigits n, h]

theorem takeWhile_dropWhile_dash (A R : List Char)
    (hA : ∀ c ∈ A, c.isDigit = true) :
    (A ++ '-' :: R).takeWhile (fun c => c != '-') = A
    ∧ (A ++ '-' :: R).dropWhile (fun c => c != '-') = '-' :: R := by
  induction A with
  | nil => simp
  | cons a A ih =>
    have ha : (a != '-') = true := by
      have := isDigit_ne_dash a (hA a (List.mem_cons_self a A))
      simpa using this
    obtain ⟨ht, hd⟩ := ih (fun c hc => hA c (List.mem_cons_of_mem a hc))
    constructor
    · rw [List.cons_append, List.takeWhile_cons, if_pos ha, ht]
    · rw [List.cons_append, List.dropWhile_cons, if_pos ha, hd]

theorem repr_data_isDigit (n : Nat) : ∀ c ∈ (Nat.repr n).data, c.isDigit = true := by
  rw [repr_data_eq_natDigits]
  exact natDigits_isDigit n

theorem chunkFileName_inj (t1 n1 t2 n2 : Nat)
    (h : chunkFileName t1 n1 = chunkFileName t2 n2) : t1 = t2 ∧ n1 = n2 := by
  have hd := congrArg String.data h
  simp only [chunkFileName, String.data_append, List.append_assoc] at hd
  have hd2 := List.append_cancel_left hd
  rw [List.singleton_append, List.singleton_append] at hd2
  obtain ⟨htake1, hdrop1⟩ :=
    takeWhile_dropWhile_dash (Nat.repr t1).data
      ((Nat.repr n1).data ++ ['.', 'c', 's', 'v']) (repr_data_isDigit t1)
  obtain ⟨htake2, hdrop2⟩ :=
    takeWhile_dropWhile_dash (Nat.repr t2).data
      ((Nat.repr n2).data ++ ['.', 'c', 's', 'v']) (repr_data_isDigit t2)
  have hA : (Nat.repr t1).data = (Nat.repr t2).data := by
    rw [← htake1, ← htake2, hd2]
  have hT : t1 = t2 := by
    apply natDigits_inj
    rw [← repr_data_eq_natDigits, ← repr_data_eq_natDigits, hA]
  have hdrop : ('-' :: ((Nat.repr n1).data ++ ['.', 'c', 's', 'v']))
      = '-' :: ((Nat.repr n2).data ++ ['.', 'c', 's', 'v']) := by
    rw [← hdrop1, ← hdrop2, hd2]
  have hB : (Nat.repr n1).data ++ ['.', 'c', 's', 'v']
      = (Nat.repr n2).data ++ ['.', 'c', 's', 'v'] := by
    injection hdrop
  have hB2 : (Nat.repr n1).data = (Nat.repr n2).data := List.append_cancel_right hB
  have hN : n1 = n2 := by
    apply natDigits_inj
    rw [← repr_data_eq_natDigits, ← repr_data_eq_natDigits, hB2]
  exact ⟨hT, hN⟩

/-- C9, counterexample: the staged name is derived from the observed
`Date.now()` timestamp and the chunk number only - not from any job
identity - so two DIFFERENT concurrent runs that stage their first chunk in
the same millisecond produce the very same staged name: the name is reused
across jobs, contradicting "unique ... across concurrent jobs (derived from
job identity and the chunk's sequence number)" and "never reused for a
different chunk or job". -/
theorem claim_c9_counterexample :
    (⟨1, [1756400000000]⟩ : JobRun).jobId ≠ (⟨2, [1756400000000]⟩ : JobRun).jobId
    ∧ runStagedNames ⟨1, [1756400000000]⟩ = runStagedNames ⟨2, [1756400000000]⟩
    ∧ runStagedNames ⟨1, [1756400000000]⟩ = ["chunk-1756400000000-1.csv"] := by
  refine ⟨by decide, rfl, by decide⟩

/-- C9, amended: staged names are unique across the chunks of one run -
chunk numbers within a run are distinct, and two names built from different
chunk numbers differ as strings, whatever timestamps were observed (the
decimal renderings of timestamp and number are recoverable from the name).
Uniqueness across concurrent jobs, however, only holds as far as their
(timestamp, chunk-number) pairs differ; job identity does not enter the
name. -/
theorem claim_c9_amended (t1 n1 t2 n2 : Nat) (hne : n1 ≠ n2) :
    chunkFileName t1 n1 ≠ chunkFileName t2 n2 :=
  fun h => hne (chunkFileName_inj t1 n1 t2 n2 h).2

/-- Witness for the amended C9: chunks 1 and 2 staged in the same
millisecond still get distinct names. -/
theorem claim_c9_amended_witness :
    (1 : Nat) ≠ 2
    ∧ chunkFileName 1756400000000 1 ≠ chunkFileName 1756400000000 2 :=
  ⟨by decide, claim_c9_amended 1756400000000 1 1756400000000 2 (by decide)⟩

/-! ## Row conversion lemmas -/

theorem isNullish_of_trim (s : String) (h : jsTrim s = "" ∨ jsTrim s = "0") :
    isNullish (some s) = true := by
  rcases h with h | h <;> simp [isNullish, h]

theorem safeTruncateString_some_inv (v : Option String) (m : Nat) (t : String)
    (h : safeTruncateString v m = some t) :
    ∃ s, v = some s ∧ t = jsTake (jsTrim s) m ∧ t.data.length ≤ m := by
  cases v with
  | none => simp [safeTruncateString, isNullish] at h
  | some s =>
    rw [safeTruncateString] at h
    by_cases hn : isNullish (some s) = true
    · rw [if_pos hn] at h
      exact absurd h (by simp)
    · rw [if_neg hn] at h
      simp only [Option.map_some', Option.some_inj] at h
      refine ⟨s, rfl, h.symm, ?_⟩
      rw [← h]
      show ((jsTrim s).data.take m).length ≤ m
      rw [List.length_take]
      exact Nat.min_le_left m _

/-- C10: `englishCSVRowToProduction` maps every one of the 26 fields whose
trimmed string form is empty or exactly `"0"` to null - including the
business key `production_order_number` and all five date fields - and
truncates every non-null `customer_name` to its first 4 characters and every
non-null `line_code` to its first character. -/
theorem claim_c10 (r : EnglishRow) :
    (∀ s, (jsTrim s = "" ∨ jsTrim s = "0") →
      (r.arrangement_method = some s → (englishCSVRowToProduction r).arrangement_method = none)
      ∧ (r.inspection_type = some s → (englishCSVRowToProduction r).inspection_type = none)
      ∧ (r.customer_name = some s → (englishCSVRowToProduction r).customer_name = none)
      ∧ (r.part_number = some s → (englishCSVRowToProduction r).part_number = none)
      ∧ (r.production_order_number = some s → (englishCSVRowToProduction r).production_order_number = none)
      ∧ (r.line_code = some s → (englishCSVRowToProduction r).line_code = none)
      ∧ (r.work_area = some s → (englishCSVRowToProduction r).work_area = none)
      ∧ (r.operator_main = some s → (englishCSVRowToProduction r).operator_main = none)
      ∧ (r.operator_plating = some s → (englishCSVRowToProduction r).operator_plating = none)
      ∧ (r.plating_type = some s → (englishCSVRowToProduction r).plating_type = none)
      ∧ (r.plating_jig = some s → (englishCSVRowToProduction r).plating_jig = none)
      ∧ (r.issue_date = some s → (englishCSVRowToProduction r).issue_date = none)
      ∧ (r.plating_payout_date = some s → (englishCSVRowToProduction r).plating_payout_date = none)
      ∧ (r.due_date = some s → (englishCSVRowToProduction r).due_date = none)
      ∧ (r.order_quantity = some s → (englishCSVRowToProduction r).order_quantity = none)
      ∧ (r.oohito_shipment_date = some s → (englishCSVRowToProduction r).oohito_shipment_date = none)
      ∧ (r.plating_process = some s → (englishCSVRowToProduction r).plating_process = none)
      ∧ (r.tamagawa_receipt_date = some s → (englishCSVRowToProduction r).tamagawa_receipt_date = none)
      ∧ (r.operator_5x = some s → (englishCSVRowToProduction r).operator_5x = none)
      ∧ (r.shelf_number = some s → (englishCSVRowToProduction r).shelf_number = none)
      ∧ (r.plating_capacity = some s → (englishCSVRowToProduction r).plating_capacity = none)
      ∧ (r.bending_count = some s → (englishCSVRowToProduction r).bending_count = none)
      ∧ (r.brazing_count = some s → (englishCSVRowToProduction r).brazing_count = none)
      ∧ (r.machine_number = some s → (englishCSVRowToProduction r).machine_number = none)
      ∧ (r.brazing_jig = some s → (englishCSVRowToProduction r).brazing_jig = none)
      ∧ (r.subcontractor = some s → (englishCSVRowToProduction r).subcontractor = none))
    ∧ (∀ t, (englishCSVRowToProduction r).customer_name = some t →
        ∃ s, r.customer_name = some s ∧ t = jsTake (jsTrim s) 4 ∧ t.data.length ≤ 4)
    ∧ (∀ t, (englishCSVRowToProduction r).line_code = some t →
        ∃ s, r.line_code = some s ∧ t = jsTake (jsTrim s) 1 ∧ t.data.length ≤ 1)
    ∧ (∀ s, r.customer_name = some s → ¬isNullish (some s) = true →
        (englishCSVRowToProduction r).customer_name = some (jsTake (jsTrim s) 4))
    ∧ (∀ s, r.line_code = some s → ¬isNullish (some s) = true →
        (englishCSVRowToProduction r).line_code = some (jsTake (jsTrim s) 1)) := by
  refine ⟨?_, ?_, ?_, ?_, ?_⟩
  · intro s hcond
    have hn := isNullish_of_trim s hcond
    refine ⟨?_, ?_, ?_, ?_, ?_, ?_, ?_, ?_, ?_, ?_, ?_, ?_, ?_, ?_, ?_, ?_, ?_, ?_, ?_, ?_, ?_, ?_, ?_, ?_, ?_, ?_⟩ <;>
      · intro hf
        simp only [englishCSVRowToProduction]
        rw [hf]
        simp [safeParseString, safeTruncateString, safeParseDate, safeParseInt, hn]
  · intro t ht
    exact safeTruncateString_some_inv r.customer_name 4 t ht
  · intro t ht
    exact safeTruncateString_some_inv r.line_code 1 t ht
  · intro s hf hn
    simp only [englishCSVRowToProduction]
    rw [hf]
    simp [safeTruncateString, hn]
  · intro s hf hn
    simp only [englishCSVRowToProduction]
    rw [hf]
    simp [safeTruncateString, hn]

/-- Witness for C10: the sentinel `"0"` nulls the business key and a date
field on concrete rows; a concrete customer name is trimmed then cut to 4
characters and a concrete line code to 1. -/
theorem claim_c10_witness :
    (jsTrim "0" = "" ∨ jsTrim "0" = "0")
    ∧ (englishCSVRowToProduction sampleEnglishRowZero).production_order_number = none
    ∧ (englishCSVRowToProduction sampleEnglishRow).issue_date = none
    ∧ ¬isNullish (some " 21011 ") = true
    ∧ (englishCSVRowToProduction sampleEnglishRow).customer_name
        = some (jsTake (jsTrim " 21011 ") 4)
    ∧ jsTake (jsTrim " 21011 ") 4 = "2101"
    ∧ (englishCSVRowToProduction sampleEnglishRow).line_code
        = some (jsTake (jsTrim "F64217") 1)
    ∧ jsTake (jsTrim "F64217") 1 = "F" := by
  have hcondA := (claim_c10 sampleEnglishRowZero).1 "0" (by decide)
  have hpo := hcondA.2.2.2.2.1 rfl
  have hcondB := (claim_c10 sampleEnglishRow).1 "0" (by decide)
  have hiss := hcondB.2.2.2.2.2.2.2.2.2.2.2.1 rfl
  have hcust := (claim_c10 sampleEnglishRow).2.2.2.1 " 21011 " rfl (by decide)
  have hlc := (claim_c10 sampleEnglishRow).2.2.2.2 "F64217" rfl (by decide)
  exact ⟨by decide, hpo, hiss, by decide, hcust, by decide, hlc, by decide⟩
